import Mathlib

/-!
Verification development for the rlm-git-commits repository.

JavaScript strings are modelled as lists of characters (`Str`); machine
numbers that the code only compares and clamps are modelled as `Int` or
`Nat`; fallible operations return `Option` or `Except`.  Every definition
is translated from the source files named in its doc comment.
-/

set_option maxRecDepth 4000

/-- JavaScript strings, modelled as lists of characters. -/
abbrev Str := List Char

/-- Characters the JavaScript whitespace class `\s` and `String.prototype.trim`
treat as whitespace (the ASCII ones; the sources only meet ASCII input). -/
def isJsSpace (c : Char) : Bool :=
  c = ' ' || c = '\t' || c = '\n' || c = '\r' || c = (Char.ofNat 11) || c = (Char.ofNat 12)

/-- JavaScript `String.prototype.trim`. -/
def jsTrim (s : Str) : Str :=
  (s.dropWhile isJsSpace).reverse.dropWhile isJsSpace |>.reverse

/-- JavaScript `String.prototype.split` with a single-character separator.
`split` of the empty string yields one empty piece, as in JavaScript. -/
def jsSplit (sep : Char) : Str → List Str
  | [] => [[]]
  | c :: rest =>
    if c = sep then [] :: jsSplit sep rest
    else
      match jsSplit sep rest with
      | [] => [[c]]
      | p :: ps => (c :: p) :: ps

/-- Join a list of lines with newline characters: `Array.prototype.join` with
separator a newline. -/
def joinNl : List Str → Str
  | [] => []
  | [l] => l
  | l :: ls => l ++ '\n' :: joinNl ls

/-- ASCII lowercasing of one character, the fragment of JavaScript
`toLowerCase` the sources exercise. -/
def lowerChar (c : Char) : Char :=
  if 'A' ≤ c && c ≤ 'Z' then Char.ofNat (c.toNat + 32) else c

/-- ASCII lowercasing of a string. -/
def lowerStr (s : Str) : Str := s.map lowerChar

/-- ASCII decimal digit test. -/
def isDigitCh (c : Char) : Bool := '0' ≤ c && c ≤ '9'

/-- ASCII letter test, the character class `[A-Za-z]`. -/
def isAsciiAlpha (c : Char) : Bool :=
  ('A' ≤ c && c ≤ 'Z') || ('a' ≤ c && c ≤ 'z')

/-- Numeric value of a list of decimal digits. -/
def digitsToNat (ds : Str) : Nat :=
  ds.foldl (fun acc c => acc * 10 + (c.toNat - 48)) 0

/-- The decimal rendering of a natural number, JavaScript `String(n)` for a
non-negative integer (`Nat.toDigits` renders base 10). -/
def natDecStr (n : Nat) : Str := Nat.toDigits 10 n

/-- Magnitude part of JavaScript `parseInt(s, 10)`: the longest leading run of
decimal digits, `none` when there is none (`NaN`). -/
def parseDigits (s : Str) : Option Nat :=
  let d := s.takeWhile isDigitCh
  if d.isEmpty then none else some (digitsToNat d)

/-- JavaScript `parseInt(s, 10)`: skip leading whitespace, an optional single
sign, then the longest run of decimal digits; `none` models `NaN`.  The float
imprecision of huge JavaScript numbers cannot change any comparison with 1 or
50 that the sources make, so an exact `Int` is a faithful model. -/
def parseIntJs (s : Str) : Option Int :=
  match s.dropWhile isJsSpace with
  | '-' :: ds => (parseDigits ds).map (fun n => -(n : Int))
  | '+' :: ds => (parseDigits ds).map (fun n => (n : Int))
  | ds => (parseDigits ds).map (fun n => (n : Int))

/-- The backtick character. -/
def backtickCh : Char := Char.ofNat 96

/-- The backslash character. -/
def backslashCh : Char := Char.ofNat 92

/-! ## Git log argument sanitization (src/scripts/lib/rlm-sandbox.ts) -/

/-- The characters of the `DANGEROUS_CHARS` regex class in
src/scripts/lib/rlm-sandbox.ts line 89. -/
def dangerousChars : List Char := ['|', ';', '&', '$', backtickCh, backslashCh]

/-- `DANGEROUS_CHARS.test(arg)`: the argument contains a dangerous character. -/
def hasDangerous (a : Str) : Bool := a.any (fun c => c ∈ dangerousChars)

/-- The `ALLOWED_GIT_LOG_FLAGS` set of src/scripts/lib/rlm-sandbox.ts. -/
def allowedGitLogFlags : List Str :=
  [("--format").data, ("--author").data, ("--since").data, ("--until").data,
   ("--grep").data, ("--no-merges").data, ("-n").data]

/-- Flag portion of a `--` argument: the text before the first `=`, or the
whole argument when it has no `=` (mirrors `indexOf("=")` plus `slice`). -/
def flagOf (a : Str) : Str := a.takeWhile (fun c => c ≠ '=')

/-- The two-character argument `-n`. -/
def nFlag : Str := ('-' :: 'n' :: [])

/-- `sanitizeGitLogArgs` of src/scripts/lib/rlm-sandbox.ts lines 91-132,
written as a recursion over the argument list; the `i++` that consumes the
numeric argument after `-n` becomes consumption of two list elements. -/
def sanitizeGitLogArgs : List Str → Option (List Str)
  | [] => some []
  | a :: rest =>
    if hasDangerous a then none
    else if List.isPrefixOf (('-' :: '-' :: [])) a then
      if flagOf a ∈ allowedGitLogFlags then
        (sanitizeGitLogArgs rest).map (fun t => a :: t)
      else none
    else if a = nFlag then
      match rest with
      | [] => (sanitizeGitLogArgs []).map (fun t => a :: t)
      | b :: rest2 =>
        match parseIntJs b with
        | none => none
        | some n =>
          if n < 1 then none
          else (sanitizeGitLogArgs rest2).map
            (fun t => a :: natDecStr (min n 50).toNat :: t)
    else if List.isPrefixOf (('-' :: [])) a && a.length = 2 then none
    else (sanitizeGitLogArgs rest).map (fun t => a :: t)

/-- The relation `only an argument right after a -n may hold a dangerous
character`, walked along consecutive pairs of the argument list. -/
def dangerChain : Str → List Str → Prop
  | _, [] => True
  | prev, b :: rest => (hasDangerous b = true → prev = nFlag) ∧ dangerChain b rest

/-- A full argument list is danger-sound when its head is clean and every
later dangerous argument directly follows a `-n`. -/
def dangerSound : List Str → Prop
  | [] => True
  | a :: rest => hasDangerous a = false ∧ dangerChain a rest

/-- In the sanitized output, every `-n` is the last element or is directly
followed by the decimal rendering of some N with 1 ≤ N ≤ 50. -/
def nSuccOk : List Str → Prop
  | [] => True
  | a :: rest =>
    (a = nFlag → rest = [] ∨ ∃ n : Nat, 1 ≤ n ∧ n ≤ 50 ∧ rest.head? = some (natDecStr n))
    ∧ nSuccOk rest

/-! ## Matching primitives (worker source in src/scripts/lib/rlm-sandbox.ts) -/

/-- The scopeMatches function built into the worker source
(src/scripts/lib/rlm-sandbox.ts lines 160-163): case-insensitive equality, or
the stored key continues the pattern with a slash right after it. -/
def scopeMatches (sv pat : Str) : Bool :=
  let s := lowerStr sv
  let p := lowerStr pat
  s == p || (List.isPrefixOf p s && List.get? s p.length == some '/')

/-- Word-character test of the regex class backslash-w: letters, digits and
underscore. -/
def isWordChar (c : Char) : Bool :=
  ('A' ≤ c && c ≤ 'Z') || ('a' ≤ c && c ≤ 'z') || ('0' ≤ c && c ≤ '9') || c = '_'

/-- Word-ness of an optional character; out of range counts as non-word. -/
def optIsWord : Option Char → Bool
  | some c => isWordChar c
  | none => false

/-- A word boundary of the regex anchor at position i of the text: word-ness
flips between the character before i and the character at i. -/
def boundaryAt (text : Str) (i : Nat) : Bool :=
  optIsWord (if i = 0 then none else List.get? text (i - 1)) != optIsWord (List.get? text i)

/-- Case-insensitive literal match of the keyword at position i. -/
def ciMatchAt (text kw : Str) (i : Nat) : Bool :=
  lowerStr ((text.drop i).take kw.length) == lowerStr kw && decide (i + kw.length ≤ text.length)

/-- The wordBoundaryMatch function built into the worker source
(src/scripts/lib/rlm-sandbox.ts lines 164-167): the keyword is regex-escaped,
so the test asks for a case-insensitive occurrence of the literal keyword
bounded by word boundaries on both sides. -/
def wordBoundaryMatch (text kw : Str) : Bool :=
  (List.range (text.length + 1)).any (fun i =>
    ciMatchAt text kw i && boundaryAt text i && boundaryAt text (i + kw.length))

/-! ## Trailer index query (worker source in src/scripts/lib/rlm-sandbox.ts,
lines 170-207) -/

/-- The compact per-commit record held in the index (`IndexedCommit` of
scripts/types.ts as described by the system prompt and the spec). -/
structure IndexedCommit where
  hash : Str
  date : Str
  subject : Str
  intent : Option Str
  scope : List Str
  session : Option Str
  decidedAgainst : List Str
deriving DecidableEq

/-- The persisted inverted index.  JavaScript objects keep string keys in
insertion order, so each mapping is an association list in that order. -/
structure TrailerIndex where
  byIntent : List (Str × List Str)
  byScope : List (Str × List Str)
  bySession : List (Str × List Str)
  withDecidedAgainst : List Str
  commits : List (Str × IndexedCommit)
  commitCount : Nat
deriving DecidableEq

/-- Query parameters of queryIndexForHashes.  `limit` is modelled as a
natural number: the documented parameter is a count, and for such values
`Array.prototype.slice(0, limit)` is `take`. -/
structure QueryParams where
  intents : Option (List Str) := none
  session : Option Str := none
  decidedAgainst : Option Str := none
  scope : Option Str := none
  limit : Option Nat := none
deriving DecidableEq

/-- JavaScript truthiness of `p.intents && p.intents.length > 0`. -/
def intentsPresent (p : QueryParams) : Bool :=
  match p.intents with
  | some l => !l.isEmpty
  | none => false

/-- JavaScript truthiness of an optional string parameter (an absent or empty
string is falsy). -/
def strPresent : Option Str → Bool
  | some s => !s.isEmpty
  | none => false

/-- The effective limit `p.limit || 20` (a missing or zero limit is falsy). -/
def effLimit (p : QueryParams) : Nat :=
  match p.limit with
  | some n => if n = 0 then 20 else n
  | none => 20

/-- First-occurrence deduplication, the insertion order of a JavaScript Set. -/
def firstDedupGo (seen : List Str) : List Str → List Str
  | [] => []
  | a :: rest =>
    if a ∈ seen then firstDedupGo seen rest
    else a :: firstDedupGo (a :: seen) rest

/-- First-occurrence deduplication of a list. -/
def firstDedup (l : List Str) : List Str := firstDedupGo [] l

/-- Union of `byIntent[i] || []` over the given intents, in iteration order
(the worker builds a Set by adding each bucket in turn). -/
def intentUnionList (idx : TrailerIndex) (is : List Str) : List Str :=
  (is.map (fun i => (List.lookup i idx.byIntent).getD [])).flatten

/-- The bucket `bySession[s] || []`. -/
def sessionList (idx : TrailerIndex) (s : Str) : List Str :=
  (List.lookup s idx.bySession).getD []

/-- The per-hash keep test of the decidedAgainst filter: the commit record
exists and one of its decided-against entries matches the keyword at a word
boundary. -/
def decidedPred (idx : TrailerIndex) (kw : Str) (h : Str) : Bool :=
  match List.lookup h idx.commits with
  | some c => c.decidedAgainst.any (fun d => wordBoundaryMatch d kw)
  | none => false

/-- The decidedAgainst filter list: hashes of withDecidedAgainst whose commit
matches the keyword. -/
def decidedList (idx : TrailerIndex) (kw : Str) : List Str :=
  idx.withDecidedAgainst.filter (decidedPred idx kw)

/-- Union of `byScope[k]` over stored keys k with scopeMatches(k, pattern),
in entry order (`Object.entries` iterates insertion order). -/
def scopeUnionList (idx : TrailerIndex) (pat : Str) : List Str :=
  ((idx.byScope.filter (fun e => scopeMatches e.1 pat)).map (fun e => e.2)).flatten

/-- One intersection step of the query: a null candidate set becomes the Set
of the given hashes (first-occurrence order); a non-null one keeps only its
members that the given hashes contain. -/
def istep (cands : Option (List Str)) (hs : List Str) : Option (List Str) :=
  match cands with
  | none => some (firstDedup hs)
  | some c => some (c.filter (fun h => decide (h ∈ hs)))

/-- The candidate set after the four conditional intersections of
queryIndexForHashes (worker source lines 170-197). -/
def queryCands (idx : TrailerIndex) (p : QueryParams) : Option (List Str) :=
  let c0 : Option (List Str) := none
  let c1 := if intentsPresent p then istep c0 (intentUnionList idx (p.intents.getD [])) else c0
  let c2 := if strPresent p.session then istep c1 (sessionList idx (p.session.getD [])) else c1
  let c3 := if strPresent p.decidedAgainst then istep c2 (decidedList idx (p.decidedAgainst.getD [])) else c2
  let c4 := if strPresent p.scope then istep c3 (scopeUnionList idx (p.scope.getD [])) else c3
  c4

/-- queryIndexForHashes of the worker source: a still-null candidate set
yields the empty list, otherwise insertion order truncated to the limit. -/
def queryIndexForHashes (idx : TrailerIndex) (p : QueryParams) : List Str :=
  match queryCands idx p with
  | none => []
  | some c => c.take (effLimit p)

/-- Whether any filter is present. -/
def hasFilter (p : QueryParams) : Bool :=
  intentsPresent p || strPresent p.session || strPresent p.decidedAgainst || strPresent p.scope

/-- The filter lists of the present filters, in the order the code applies
them. -/
def activeFilters (idx : TrailerIndex) (p : QueryParams) : List (List Str) :=
  (if intentsPresent p then [intentUnionList idx (p.intents.getD [])] else [])
  ++ (if strPresent p.session then [sessionList idx (p.session.getD [])] else [])
  ++ (if strPresent p.decidedAgainst then [decidedList idx (p.decidedAgainst.getD [])] else [])
  ++ (if strPresent p.scope then [scopeUnionList idx (p.scope.getD [])] else [])

/-- The specification predicate of C3, written from the words of the spec: a
hash satisfies every present filter. -/
def satisfiesFilters (idx : TrailerIndex) (p : QueryParams) (h : Str) : Prop :=
  (intentsPresent p = true →
    ∃ i ∈ p.intents.getD [], h ∈ (List.lookup i idx.byIntent).getD [])
  ∧ (strPresent p.session = true →
    h ∈ (List.lookup (p.session.getD []) idx.bySession).getD [])
  ∧ (strPresent p.decidedAgainst = true →
    h ∈ idx.withDecidedAgainst ∧ ∃ c, List.lookup h idx.commits = some c ∧
      ∃ d ∈ c.decidedAgainst, wordBoundaryMatch d (p.decidedAgainst.getD []) = true)
  ∧ (strPresent p.scope = true →
    ∃ k hs, (k, hs) ∈ idx.byScope ∧ scopeMatches k (p.scope.getD []) = true ∧ h ∈ hs)

/-- Sequential application of intersection steps over a list of filter
lists. -/
def applyFilters : Option (List Str) → List (List Str) → Option (List Str)
  | c, [] => c
  | c, l :: ls => applyFilters (istep c l) ls

/-- Nested filtering of a candidate list by membership in each filter list. -/
def foldFilter (c : List Str) : List (List Str) → List Str
  | [] => c
  | l :: ls => foldFilter (c.filter (fun h => decide (h ∈ l))) ls

/-! ## Concrete index of the query scenario (spec section 8, scenario 3) -/

/-- Commit record aaa of the query scenario. -/
def commitAaa : IndexedCommit :=
  { hash := ("aaa").data, date := [], subject := [],
    intent := some (("fix-defect").data), scope := [("auth/login").data],
    session := none, decidedAgainst := [] }

/-- Commit record bbb of the query scenario. -/
def commitBbb : IndexedCommit :=
  { hash := ("bbb").data, date := [], subject := [],
    intent := some (("fix-defect").data), scope := [("cache").data],
    session := none, decidedAgainst := [("Redis sentinel").data] }

/-- Commit record ccc of the query scenario. -/
def commitCcc : IndexedCommit :=
  { hash := ("ccc").data, date := [], subject := [],
    intent := some (("enable-capability").data), scope := [("auth").data],
    session := none, decidedAgainst := [] }

/-- The three-commit index of the query scenario. -/
def idxEx : TrailerIndex :=
  { byIntent := [(("fix-defect").data, [("aaa").data, ("bbb").data]),
                 (("enable-capability").data, [("ccc").data])],
    byScope := [(("auth/login").data, [("aaa").data]),
                (("cache").data, [("bbb").data]),
                (("auth").data, [("ccc").data])],
    bySession := [],
    withDecidedAgainst := [("bbb").data],
    commits := [(("aaa").data, commitAaa), (("bbb").data, commitBbb),
                (("ccc").data, commitCcc)],
    commitCount := 3 }

/-- The query parameters with only scope auth. -/
def pScopeAuth : QueryParams := { scope := some (("auth").data) }

/-! ## Commit parsing (src/unnamed/part_007: parser.ts) -/

/-- Modelled from the spec: the known-keys allow-list KNOWN_TRAILER_KEYS lives
in scripts/types.ts, a file that is not among the staged sources (only its
importers are); spec section 4.1 lists the keys: intent, scope,
decided-against, session, refs, context, breaking, signed-off-by,
co-authored-by. -/
def knownTrailerKeys : List Str :=
  [("intent").data, ("scope").data, ("decided-against").data, ("session").data,
   ("refs").data, ("context").data, ("breaking").data, ("signed-off-by").data,
   ("co-authored-by").data]

/-- The eight-value intent vocabulary INTENT_TYPES of scripts/types.ts (its
content is confirmed by src/unnamed/part_009 and part_010). -/
def intentTypes : List Str :=
  [("enable-capability").data, ("fix-defect").data, ("improve-quality").data,
   ("restructure").data, ("configure-infra").data, ("document").data,
   ("explore").data, ("resolve-blocker").data]

/-- isIntentType of parser.ts: membership in the controlled vocabulary. -/
def isIntentType (v : Str) : Bool := decide (v ∈ intentTypes)

/-- TRAILER_RE applied to an already-trimmed line: an alphabetic character, a
run of alphabetic characters and hyphens (the key), optional whitespace, a
colon, optional whitespace, then a non-empty value.  All call sites trim the
line first, so the greedy regex and this deterministic reading agree. -/
def trailerExec (line : Str) : Option (Str × Str) :=
  match line with
  | [] => none
  | c :: rest =>
    if isAsciiAlpha c then
      let keyTail := rest.takeWhile (fun ch => isAsciiAlpha ch || ch = '-')
      let afterKey := rest.drop keyTail.length
      let afterWs := afterKey.dropWhile isJsSpace
      match afterWs with
      | ':' :: vrest =>
        let v := vrest.dropWhile isJsSpace
        if v.isEmpty then none else some (c :: keyTail, v)
      | _ => none
    else none

/-- Record update for parseTrailers: append the value to the key entry, or
add a new entry at the end (JavaScript object insertion order). -/
def assocAppend (m : List (Str × List Str)) (k : Str) (v : Str) : List (Str × List Str) :=
  match m with
  | [] => [(k, [v])]
  | (k2, vs) :: rest =>
    if k2 = k then (k2, vs ++ [v]) :: rest else (k2, vs) :: assocAppend rest k v

/-- parseTrailers of parser.ts: fold the lines, keeping only trailers whose
lowercased key is in the known-keys allow-list, trimming values. -/
def parseTrailers (lines : List Str) : List (Str × List Str) :=
  lines.foldl (fun acc line =>
    match trailerExec (jsTrim line) with
    | some kv =>
      let k := lowerStr kv.1
      if k ∈ knownTrailerKeys then assocAppend acc k (jsTrim kv.2) else acc
    | none => acc) []

/-- A line whose trimmed form is empty. -/
def isBlankLine (l : Str) : Bool := (jsTrim l).isEmpty

/-- An already-trimmed line that TRAILER_RE recognizes with a known key. -/
def isKnownTrailerTrimmed (l : Str) : Bool :=
  match trailerExec l with
  | some kv => decide (lowerStr kv.1 ∈ knownTrailerKeys)
  | none => false

/-- The known-trailer test the backward scan applies to a raw line. -/
def isKnownTrailerLine (l : Str) : Bool := isKnownTrailerTrimmed (jsTrim l)

/-- Indexing into the line array (out of range gives the empty line, which in
the scan is only ever tested through total functions). -/
def lineAt (lines : List Str) (i : Nat) : Str := (List.get? lines i).getD []

/-- The nearest non-blank line strictly below the given index (the inner
while loop of splitHeaderBodyTrailers); the argument is one past the start
index, so 0 plays the role of index -1. -/
def prevNonBlank (lines : List Str) : Nat → Option Nat
  | 0 => none
  | j + 1 => if isBlankLine (lineAt lines j) then prevNonBlank lines j else some j

/-- The backward scan of splitHeaderBodyTrailers (parser.ts lines 86-122).
The first argument is one past the current index; the second is the running
trailerStart.  A blank line continues only when the nearest non-blank line
above is a known trailer; a known trailer moves trailerStart to the current
index; any other line resets trailerStart to the line count and stops. -/
def scanLoop (lines : List Str) : Nat → Nat → Nat
  | 0, ts => ts
  | i + 1, ts =>
    if isBlankLine (lineAt lines i) then
      match prevNonBlank lines i with
      | some j => if isKnownTrailerLine (lineAt lines j) then scanLoop lines i ts else ts
      | none => ts
    else if isKnownTrailerLine (lineAt lines i) then scanLoop lines i i
    else lines.length

/-- The trailerStart computed by splitHeaderBodyTrailers: skip trailing blank
lines, then run the backward scan starting at lines.length. -/
def trailerStartOf (lines : List Str) : Nat :=
  match prevNonBlank lines lines.length with
  | none => lines.length
  | some i0 => scanLoop lines (i0 + 1) lines.length

/-- splitHeaderBodyTrailers of parser.ts: body is the trimmed join of the
lines before trailerStart; the trailer lines are the rest, trimmed, with
blank lines dropped. -/
def splitHeaderBodyTrailers (rawBody : Str) : Str × List Str :=
  let lines := jsSplit '\n' rawBody
  let ts := trailerStartOf lines
  (jsTrim (joinNl (lines.take ts)),
   ((lines.drop ts).map jsTrim).filter (fun l => !l.isEmpty))

/-- The ten conventional-commit types, in the alternation order of
HEADER_RE. -/
def convTypes : List Str :=
  [("feat").data, ("fix").data, ("refactor").data, ("perf").data,
   ("docs").data, ("test").data, ("build").data, ("ci").data,
   ("chore").data, ("revert").data]

/-- HEADER_RE applied to the trimmed subject: a conventional type, an
optional parenthesized non-empty scope, an optional exclamation mark, a
colon, whitespace, then the non-empty subject.  No type is a prefix of
another, so the alternation is deterministic; the input has no trailing
whitespace and no newline (parseCommitBlock trims one line), so the greedy
regex and this reading agree. -/
def headerExec (s : Str) : Option (Str × Option Str × Str) :=
  match convTypes.find? (fun t => List.isPrefixOf t s) with
  | none => none
  | some t =>
    let rest := s.drop t.length
    let scopeAndRest : Option Str × Str :=
      match rest with
      | '(' :: r =>
        let sc := r.takeWhile (fun c => c ≠ ')')
        if sc.isEmpty then (none, rest)
        else
          match r.drop sc.length with
          | ')' :: r2 => (some sc, r2)
          | _ => (none, rest)
      | _ => (none, rest)
    let rest2 :=
      match scopeAndRest.2 with
      | '!' :: r => r
      | r => r
    match rest2 with
    | ':' :: after =>
      let ws := after.takeWhile isJsSpace
      if ws.isEmpty then none
      else
        let subj := after.drop ws.length
        if subj.isEmpty then none else some (t, scopeAndRest.1, subj)
    | _ => none

/-- The parsed form of one commit (StructuredCommit of scripts/types.ts as
reproduced in src/unnamed/part_009).  The context field keeps the raw
Context trailer value: parseContextJson maps it through JSON.parse to a
mapping or null, never fails the parse, and no claim inspects the parsed
value. -/
structure StructuredCommit where
  hash : Str
  date : Str
  type : Str
  headerScope : Option Str
  subject : Str
  body : Str
  intent : Option Str
  scope : List Str
  decidedAgainst : List Str
  session : Option Str
  refs : List Str
  context : Option Str
  breaking : Option Str
  raw : Str
deriving DecidableEq

/-- ParseError of scripts/types.ts: hash, reason, raw block. -/
structure ParseError where
  hash : Str
  reason : Str
  raw : Str
deriving DecidableEq

/-- The apostrophe character. -/
def aposCh : Char := Char.ofNat 39

/-- The double-quote character. -/
def quotCh : Char := Char.ofNat 34

/-- The missing-required-fields error message of parseCommitBlock. -/
def missingFieldsMsg : Str := ("Missing required fields (Hash, Date, or Subject)").data

/-- The non-conventional-subject error message of parseCommitBlock, with the
subject interpolated between double quotes. -/
def nonConvMsg (fullSubject : Str) : Str :=
  ("Subject doesn").data ++ aposCh :: ("t match Conventional Commits format: ").data
    ++ quotCh :: fullSubject ++ (quotCh :: [])

/-- Comma-split, trim and drop empties: the scope and refs extraction. -/
def splitCommaTrimFilter (s : Str) : List Str :=
  ((jsSplit ',' s).map jsTrim).filter (fun x => !x.isEmpty)

/-- The prefix tag of the Hash line. -/
def hashTag : Str := ("Hash: ").data

/-- The prefix tag of the Date line. -/
def dateTag : Str := ("Date: ").data

/-- The prefix tag of the Subject line. -/
def subjectTag : Str := ("Subject: ").data

/-- parseCommitBlock of parser.ts (src/unnamed/part_007 lines 140-218). -/
def parseCommitBlock (block : Str) : Except ParseError StructuredCommit :=
  let lines := jsSplit '\n' (jsTrim block)
  let hashLine := lines.find? (fun l => List.isPrefixOf hashTag l)
  let dateLine := lines.find? (fun l => List.isPrefixOf dateTag l)
  let subjectLine := lines.find? (fun l => List.isPrefixOf subjectTag l)
  match hashLine, dateLine, subjectLine with
  | some hl, some dl, some sl =>
    let hash := jsTrim (hl.drop 6)
    let date := jsTrim (dl.drop 6)
    let fullSubject := jsTrim (sl.drop 9)
    (match headerExec fullSubject with
     | none => .error { hash := hash, reason := nonConvMsg fullSubject, raw := block }
     | some tys =>
       let subjectIndex := (lines.findIdx? (fun l => List.isPrefixOf subjectTag l)).getD 0
       let rawBody := joinNl (lines.drop (subjectIndex + 1))
       let bt := splitHeaderBodyTrailers rawBody
       let trailers := parseTrailers bt.2
       let intentRaw := (List.lookup (("intent").data) trailers).bind List.head?
       let intent :=
         match intentRaw with
         | some v => if !v.isEmpty && isIntentType v then some v else none
         | none => none
       let scopeRaw := ((List.lookup (("scope").data) trailers).bind List.head?).getD []
       let scope := if scopeRaw.isEmpty then [] else splitCommaTrimFilter scopeRaw
       let decided := (List.lookup (("decided-against").data) trailers).getD []
       let session := (List.lookup (("session").data) trailers).bind List.head?
       let refsRaw := ((List.lookup (("refs").data) trailers).bind List.head?).getD []
       let refs := if refsRaw.isEmpty then [] else splitCommaTrimFilter refsRaw
       let contextRaw := (List.lookup (("context").data) trailers).bind List.head?
       let context :=
         match contextRaw with
         | some v => if v.isEmpty then none else some v
         | none => none
       let breaking := (List.lookup (("breaking").data) trailers).bind List.head?
       .ok { hash := hash, date := date, type := tys.1, headerScope := tys.2.1,
             subject := tys.2.2, body := bt.1, intent := intent, scope := scope,
             decidedAgainst := decided, session := session, refs := refs,
             context := context, breaking := breaking, raw := block })
  | hl, _, _ =>
    .error { hash := match hl with | some l => l.drop 6 | none => ("unknown").data,
             reason := missingFieldsMsg, raw := block }

/-- Whether the three required lines are present in the block. -/
def requiredPresent (block : Str) : Bool :=
  let lines := jsSplit '\n' (jsTrim block)
  ((lines.find? (fun l => List.isPrefixOf hashTag l)).isSome
    && (lines.find? (fun l => List.isPrefixOf dateTag l)).isSome)
    && (lines.find? (fun l => List.isPrefixOf subjectTag l)).isSome

/-- The trimmed subject text of the first Subject line of the block. -/
def subjectTextOf (block : Str) : Str :=
  match (jsSplit '\n' (jsTrim block)).find? (fun l => List.isPrefixOf subjectTag l) with
  | some l => jsTrim (l.drop 9)
  | none => []

/-- The commit block of the C5 scenario: a body line that looks like a
trailer (WEBHOOK_URL followed by a colon) above a blank line and two real
trailers. -/
def webhookBlock : Str :=
  ("Hash: abc123\nDate: 2025-01-01T00:00:00Z\nSubject: feat(api): add webhook endpoint\nConfigure via WEBHOOK_URL: https://example.com\n\nIntent: enable-capability\nScope: api/webhooks").data

/-- A line index whose line is blank or a recognized known-key trailer. -/
def blankOrKnown (lines : List Str) (m : Nat) : Prop :=
  isBlankLine (lineAt lines m) = true ∨ isKnownTrailerLine (lineAt lines m) = true

/-! ## Code extraction (src/scripts/lib/rlm-code-extractor.ts) -/

/-- Three backticks, the fence marker. -/
def tripleBacktick : Str := [backtickCh, backtickCh, backtickCh]

/-- The whitespace the open-fence regex may consume after the marker: the
greedy run backtracks until the multiline end-of-line anchor holds, so the
consumed width is the full run when the string ends there, otherwise the
position of the last newline inside the run; no match otherwise. -/
def fenceWsConsume (tail : Str) : Option Nat :=
  let run := tail.takeWhile isJsSpace
  if (tail.drop run.length).isEmpty then some run.length
  else
    match (run.reverse.findIdx? (fun c => c = '\n')) with
    | some ridx => some (run.length - 1 - ridx)
    | none => none

/-- The language tags of the open fence, in the alternation order of the
regex (js, javascript, nothing). -/
def langOptions : List Str := [("js").data, ("javascript").data, []]

/-- Match the open-fence regex at a line start: three backticks, an optional
language tag, whitespace up to an end of line.  Returns the length of the
matched text. -/
def tryOpenAt (s : Str) : Option Nat :=
  if List.isPrefixOf tripleBacktick s then
    let rest := s.drop 3
    (langOptions.filterMap (fun lang =>
      if List.isPrefixOf lang rest then
        (fenceWsConsume (rest.drop lang.length)).map (fun w => 3 + lang.length + w)
      else none)).head?
  else none

/-- Scan the line starts of the text for the first open-fence match; `fuel`
only bounds the recursion (each step consumes at least one character, so the
initial fuel of length + 1 never runs out).  Returns the match position and
the matched length. -/
def findOpenFenceGo : Nat → Str → Nat → Option (Nat × Nat)
  | 0, _, _ => none
  | fuel + 1, s, pos =>
    match tryOpenAt s with
    | some w => some (pos, w)
    | none =>
      match s.findIdx? (fun c => c = '\n') with
      | some idx => findOpenFenceGo fuel (s.drop (idx + 1)) (pos + idx + 1)
      | none => none

/-- First open-fence match of the response (the multiline regex anchors the
match to line starts). -/
def findOpenFence (s : Str) : Option (Nat × Nat) := findOpenFenceGo (s.length + 1) s 0

/-- First index of the pattern in the string, JavaScript `indexOf`. -/
def findSubIdx (pat : Str) : Str → Option Nat
  | [] => if pat.isEmpty then some 0 else none
  | c :: rest =>
    if List.isPrefixOf pat (c :: rest) then some 0
    else (findSubIdx pat rest).map (fun n => n + 1)

/-- The closing fence searched for by extractCodeBlock: a newline and three
backticks. -/
def closeFence : Str := '\n' :: tripleBacktick

/-- extractCodeBlock of src/scripts/lib/rlm-code-extractor.ts: the first
fenced block; a missing closing fence takes the remainder; a blank block (or
no fence) yields none. -/
def extractCodeBlock (response : Str) : Option Str :=
  match findOpenFence response with
  | none => none
  | some pw =>
    let rest := response.drop (pw.1 + pw.2)
    let code :=
      match findSubIdx closeFence rest with
      | some idx => rest.take idx
      | none => rest
    let trimmed := jsTrim code
    if trimmed.isEmpty then none else some trimmed

/-! ## REPL driver (src/unnamed/part_006: rlm-repl.ts)

The two injected effects (the LLM call and the sandbox execution) and the
wall clock are abstracted into an oracle indexed by the loop iteration: per
iteration it fixes the budgetExhausted() reading at the loop top, the root
LLM call outcome, the number of callLlm attempts the executed code makes,
and the sandbox execute outcome; two further components fix the post-loop
budget reading and the forced final call outcome.  Sub-call accounting
mirrors trackedLlmCall: each attempt increments llmCallCount only while it
is below maxLlmCalls, so the increments of one execute are the minimum of
the attempts and the remaining budget.  The conversation array only feeds
the effects, which the oracle already abstracts, so it is not tracked;
returnValue and elapsedMs are likewise absorbed. -/

/-- The observable sandbox output (SandboxOutput of rlm-sandbox.ts without
the returnValue field, which runRepl never reads). -/
structure SandboxOutput where
  stdout : Str
  error : Option Str
  done : Bool
  doneAnswer : Option Str
deriving DecidableEq

/-- The oracle record of one loop iteration. -/
structure IterBehavior where
  budget : Bool
  root : Option Str
  subRequests : Nat
  exec : Option SandboxOutput

/-- The effect oracle of one runRepl run. -/
structure ReplOracle where
  iter : Nat → IterBehavior
  finalBudget : Bool
  finalRoot : Option Str

/-- ReplConfig of rlm-repl.ts. -/
structure ReplConfig where
  maxIterations : Nat
  maxLlmCalls : Nat
  timeoutBudgetMs : Nat
  maxOutputTokens : Nat
deriving DecidableEq

/-- ReplTraceEntry of rlm-repl.ts. -/
structure ReplTraceEntry where
  iteration : Nat
  codeGenerated : Str
  executionResult : Str
  subCallCount : Nat
deriving DecidableEq

/-- ReplResult of rlm-repl.ts (elapsedMs omitted: wall clock is oracle
data). -/
structure ReplResult where
  answer : Str
  iterations : Nat
  llmCalls : Nat
  trace : List ReplTraceEntry
deriving DecidableEq

/-- Outcome of the for loop of runRepl, carrying the final llmCallCount. -/
inductive LoopOutcome where
  | returned (r : ReplResult) (count : Nat)
  | failed (count : Nat)
  | fellThrough (count : Nat) (trace : List ReplTraceEntry)
deriving DecidableEq

/-- The sandbox timeout message of rlm-sandbox.ts. -/
def sandboxTimeoutMsg : Str := ("Sandbox execution timed out").data

/-- The executionResult text of a trace entry for a completed execution. -/
def execResultStr (out : SandboxOutput) : Str :=
  match out.error with
  | some e => ("ERROR: ").data ++ e ++ '\n' :: out.stdout
  | none => out.stdout

/-- JavaScript truthiness of output.doneAnswer (null and the empty string
are falsy). -/
def doneAnswerTruthy : Option Str → Bool
  | some s => !s.isEmpty
  | none => false

/-- The for loop of runRepl (rlm-repl.ts lines 147-229).  The first argument
is the remaining fuel, the second the iteration index i (their sum stays
maxIterations), then llmCallCount and the trace. -/
def runReplLoop (o : ReplOracle) (cfg : ReplConfig) :
    Nat → Nat → Nat → List ReplTraceEntry → LoopOutcome
  | 0, _, count, trace => .fellThrough count trace
  | fuel + 1, i, count, trace =>
    if (o.iter i).budget || !(decide (count < cfg.maxLlmCalls)) then
      .fellThrough count trace
    else
      match (o.iter i).root with
      | none => .failed (count + 1)
      | some resp =>
        match extractCodeBlock resp with
        | none =>
          .returned { answer := resp, iterations := i + 1, llmCalls := count + 1,
                      trace := trace } (count + 1)
        | some code =>
          let subs := min (o.iter i).subRequests (cfg.maxLlmCalls - (count + 1))
          let c2 := count + 1 + subs
          match (o.iter i).exec with
          | none =>
            runReplLoop o cfg fuel (i + 1) c2
              (trace ++ [{ iteration := i, codeGenerated := code,
                           executionResult := ("ERROR: ").data ++ sandboxTimeoutMsg,
                           subCallCount := subs }])
          | some out =>
            if out.done && doneAnswerTruthy out.doneAnswer then
              .returned { answer := out.doneAnswer.getD [], iterations := i + 1,
                          llmCalls := c2,
                          trace := trace ++ [{ iteration := i, codeGenerated := code,
                                               executionResult := execResultStr out,
                                               subCallCount := subs }] } c2
            else
              runReplLoop o cfg fuel (i + 1) c2
                (trace ++ [{ iteration := i, codeGenerated := code,
                             executionResult := execResultStr out,
                             subCallCount := subs }])

/-- The whole-run outcome: the returned Result (none models a propagated LLM
failure), the final llmCallCount, and whether sandbox.terminate() ran; the
try/finally of runRepl runs terminate on every path, modelled by setting the
flag in every branch below. -/
structure RunOutcome where
  result : Option ReplResult
  llmCount : Nat
  terminated : Bool
deriving DecidableEq

/-- The degraded completion of runRepl (lines 252-262): the last trace
entry's executionResult, or a fixed message when the trace is empty. -/
def degradedResult (count : Nat) (trace : List ReplTraceEntry) : ReplResult :=
  { answer := match trace.getLast? with
      | some e => e.executionResult
      | none => ("No output produced").data,
    iterations := trace.length, llmCalls := count, trace := trace }

/-- runRepl of rlm-repl.ts: run the loop, then the forced final text call
when budgets allow, then the degraded completion. -/
def runRepl (o : ReplOracle) (cfg : ReplConfig) : RunOutcome :=
  match runReplLoop o cfg cfg.maxIterations 0 0 [] with
  | .returned r c => { result := some r, llmCount := c, terminated := true }
  | .failed c => { result := none, llmCount := c, terminated := true }
  | .fellThrough c trace =>
    if decide (c < cfg.maxLlmCalls) && !o.finalBudget then
      match o.finalRoot with
      | some t =>
        { result := some { answer := t, iterations := cfg.maxIterations + 1,
                           llmCalls := c + 1, trace := trace },
          llmCount := c + 1, terminated := true }
      | none =>
        { result := some (degradedResult (c + 1) trace), llmCount := c + 1,
          terminated := true }
    else { result := some (degradedResult c trace), llmCount := c, terminated := true }

/-- The loop invariant of C4, read off a loop outcome. -/
def loopOK (cfg : ReplConfig) : LoopOutcome → Prop
  | .returned r c => r.llmCalls = c ∧ c ≤ cfg.maxLlmCalls ∧ r.iterations ≤ cfg.maxIterations
  | .failed c => c ≤ cfg.maxLlmCalls
  | .fellThrough c tr => c ≤ cfg.maxLlmCalls ∧ tr.length ≤ cfg.maxIterations

/-! ## Configuration (src/scripts/lib/rlm-config.ts) -/

/-- RlmConfig of rlm-config.ts.  Modelled from the spec for the five REPL
fields: the staged rlm-config.ts predates them, while its test file imports
DEFAULT_REPL_CONFIG and runRepl reads them from RlmConfig; spec section 6.2
lists the fields. -/
structure RlmConfig where
  version : Nat
  enabled : Bool
  endpoint : Str
  model : Str
  timeoutMs : Nat
  maxTokens : Nat
  replEnabled : Bool
  replMaxIterations : Nat
  replMaxLlmCalls : Nat
  replTimeoutBudgetMs : Nat
  replMaxOutputTokens : Nat
deriving DecidableEq

/-- DEFAULT_CONFIG of rlm-config.ts lines 30-37, extended with the REPL
defaults.  Modelled from the spec: missing file yields disabled,
localhost:11434, 5 s, 256 tokens, REPL 6/10/15000/512 (the test file
rlm-config.test.ts asserts the same five REPL values). -/
def DEFAULT_CONFIG : RlmConfig :=
  { version := 1, enabled := false, endpoint := ("http://localhost:11434").data,
    model := ("qwen2.5:7b").data, timeoutMs := 5000, maxTokens := 256,
    replEnabled := false, replMaxIterations := 6, replMaxLlmCalls := 10,
    replTimeoutBudgetMs := 15000, replMaxOutputTokens := 512 }

/-- The JSON object read from rlm-config.json, after the per-field typeof
checks: a field is none when absent or of the wrong type. -/
structure RawConfig where
  version : Option Nat := none
  enabled : Option Bool := none
  endpoint : Option Str := none
  model : Option Str := none
  timeoutMs : Option Nat := none
  maxTokens : Option Nat := none
  replEnabled : Option Bool := none
  replMaxIterations : Option Nat := none
  replMaxLlmCalls : Option Nat := none
  replTimeoutBudgetMs : Option Nat := none
  replMaxOutputTokens : Option Nat := none
deriving DecidableEq

/-- loadRlmConfig of rlm-config.ts lines 70-91 over the outcome of reading
and parsing the file: none models a missing, unreadable or unparseable file
(the catch paths); a parsed object is rejected to the defaults unless
version is 1, then each well-typed field overrides its default. -/
def loadRlmConfig : Option RawConfig → RlmConfig
  | none => DEFAULT_CONFIG
  | some d =>
    if d.version ≠ some 1 then DEFAULT_CONFIG
    else
      { version := 1,
        enabled := d.enabled.getD DEFAULT_CONFIG.enabled,
        endpoint := d.endpoint.getD DEFAULT_CONFIG.endpoint,
        model := d.model.getD DEFAULT_CONFIG.model,
        timeoutMs := d.timeoutMs.getD DEFAULT_CONFIG.timeoutMs,
        maxTokens := d.maxTokens.getD DEFAULT_CONFIG.maxTokens,
        replEnabled := d.replEnabled.getD DEFAULT_CONFIG.replEnabled,
        replMaxIterations := d.replMaxIterations.getD DEFAULT_CONFIG.replMaxIterations,
        replMaxLlmCalls := d.replMaxLlmCalls.getD DEFAULT_CONFIG.replMaxLlmCalls,
        replTimeoutBudgetMs := d.replTimeoutBudgetMs.getD DEFAULT_CONFIG.replTimeoutBudgetMs,
        replMaxOutputTokens := d.replMaxOutputTokens.getD DEFAULT_CONFIG.replMaxOutputTokens }

/-- replConfigFromRlm of rlm-repl.ts lines 77-82. -/
def replConfigFromRlm (c : RlmConfig) : ReplConfig :=
  { maxIterations := c.replMaxIterations, maxLlmCalls := c.replMaxLlmCalls,
    timeoutBudgetMs := c.replTimeoutBudgetMs, maxOutputTokens := c.replMaxOutputTokens }

/-! ## Concrete oracles for the REPL claims -/

def fencedResp : Str :=
  ("I will query the index.\n```js\nconst r = query()\nconsole.log(r)\n```").data

def codeOfFencedResp : Str := ("const r = query()\nconsole.log(r)").data

def plainResp : Str := ("The relevant context is the auth module.").data

def outNoDone : SandboxOutput :=
  { stdout := ("ok").data, error := none, done := false, doneAnswer := none }

def oracleC7 : ReplOracle :=
  { iter := fun i =>
      if i = 0 then
        { budget := false, root := some fencedResp, subRequests := 0, exec := some outNoDone }
      else
        { budget := false, root := some plainResp, subRequests := 0, exec := none },
    finalBudget := false, finalRoot := some (("final").data) }

def cfgSmall : ReplConfig :=
  { maxIterations := 2, maxLlmCalls := 10, timeoutBudgetMs := 15000, maxOutputTokens := 512 }

def outDoneAnswer : SandboxOutput :=
  { stdout := [], error := none, done := true, doneAnswer := some (("Found 2 auth commits").data) }

def oracleC8w : ReplOracle :=
  { iter := fun _ =>
      { budget := false, root := some fencedResp, subRequests := 0, exec := some outDoneAnswer },
    finalBudget := false, finalRoot := none }

def outDoneEmpty : SandboxOutput :=
  { stdout := [], error := none, done := true, doneAnswer := some [] }

def oracleC8 : ReplOracle :=
  { iter := fun _ =>
      { budget := false, root := some fencedResp, subRequests := 0, exec := some outDoneEmpty },
    finalBudget := false, finalRoot := some (("FINAL").data) }

def cfgOne : ReplConfig :=
  { maxIterations := 1, maxLlmCalls := 10, timeoutBudgetMs := 15000, maxOutputTokens := 512 }

/-! ## Helper lemmas for sanitizeGitLogArgs -/

theorem dangerChain_of_sound (a : Str) (rest : List Str) (h : dangerSound rest) :
    dangerChain a rest := by
  cases rest with
  | nil => trivial
  | cons r0 rest2 =>
    refine ⟨fun hd => ?_, h.2⟩
    rw [h.1] at hd
    exact absurd hd (by simp)

theorem natDecStr_small_clean : ∀ n : Nat, n ≤ 50 → hasDangerous (natDecStr n) = false := by
  decide

theorem natDecStr_small_ne_nFlag : ∀ n : Nat, n ≤ 50 → natDecStr n ≠ nFlag := by
  decide

theorem parseIntJs_dash_nonpos (bs : Str) :
    ∀ n : Int, parseIntJs ('-' :: bs) = some n → n ≤ 0 := by
  intro n h
  have hs : isJsSpace '-' = false := by decide
  simp only [parseIntJs, List.dropWhile, hs] at h
  rcases Option.map_eq_some'.mp h with ⟨v, h1, hv⟩
  rcases Option.bind_eq_some.mp h1 with ⟨a, _, ha⟩
  have hva : v = (a : Int) := by simpa using ha.symm
  omega

theorem parseIntJs_ddash_none (bs : Str) : parseIntJs ('-' :: '-' :: bs) = none := by
  have hs : isJsSpace '-' = false := by decide
  have hd : isDigitCh '-' = false := by decide
  simp [parseIntJs, List.dropWhile, hs, parseDigits, List.takeWhile, hd]

/-- C2: an argument that begins with a single dash, does not begin with two
dashes, and is longer than two characters (such as -n500 or -x5) is handled by
the positional branch of sanitizeGitLogArgs: when it holds no dangerous
character it is passed through to the sanitized output unchanged and the rest
of the argument list is processed as before, so the 50 cap and the
single-letter-flag rejection never apply to it. -/
theorem sanitize_cons_passthrough (a : Str) (rest : List Str)
    (h1 : List.isPrefixOf ('-' :: []) a = true)
    (h2 : List.isPrefixOf ('-' :: '-' :: []) a = false)
    (h3 : 2 < a.length) (h4 : hasDangerous a = false) :
    sanitizeGitLogArgs (a :: rest) = (sanitizeGitLogArgs rest).map (fun t => a :: t) := by
  have hne : a ≠ nFlag := by
    intro he
    subst he
    simp [nFlag] at h3
  have hlen : ¬ (a.length = 2) := by omega
  rw [sanitizeGitLogArgs.eq_def]
  simp [h4, h2, hne, hlen]

/-- C1 (amended): when `sanitizeGitLogArgs(args)` succeeds, every argument the
sanitizer inspects is free of the dangerous characters (the head is clean, and
a dangerous argument can only sit directly after a `-n`, which consumes it as
the count without the character check), the sanitized output itself carries no
dangerous character, every `--` argument has its flag portion in the allow
set, every two-character single-dash argument is `-n`, and in the sanitized
output a `-n` is last or directly followed by the decimal rendering of an N
with 1 ≤ N ≤ 50. -/
theorem sanitizeGitLogArgs_ok_guarantees :
    ∀ args out, sanitizeGitLogArgs args = some out →
      dangerSound args
      ∧ (∀ a ∈ out, hasDangerous a = false)
      ∧ (∀ a ∈ args, List.isPrefixOf ('-' :: '-' :: []) a = true → flagOf a ∈ allowedGitLogFlags)
      ∧ (∀ a ∈ args, List.isPrefixOf ('-' :: []) a = true → a.length = 2 → a = nFlag)
      ∧ nSuccOk out := by
  have e1 : hasDangerous nFlag = false := by decide
  have e2 : List.isPrefixOf ('-' :: '-' :: []) nFlag = false := by decide
  intro args
  induction args using sanitizeGitLogArgs.induct with
  | case1 =>
      intro out h
      have hv : sanitizeGitLogArgs [] = some [] := rfl
      rw [hv] at h
      injection h with h2
      subst h2
      exact ⟨trivial, by simp, by simp, by simp, trivial⟩
  | case2 p ps hdang =>
      intro out h
      rw [sanitizeGitLogArgs.eq_def] at h
      simp [hdang] at h
  | case3 p ps hdang hpre hflag ih =>
      intro out h
      rw [sanitizeGitLogArgs.eq_def] at h
      simp [hdang, hpre, hflag] at h
      obtain ⟨t, ht, rfl⟩ := h
      obtain ⟨ihS, ihClean, ihFlags, ihLen2, ihN⟩ := ih t ht
      refine ⟨⟨by simpa using hdang, dangerChain_of_sound p ps ihS⟩, ?_, ?_, ?_, ?_⟩
      · intro a ha
        rcases List.mem_cons.mp ha with rfl | ha2
        · simpa using hdang
        · exact ihClean a ha2
      · intro a ha hpa
        rcases List.mem_cons.mp ha with rfl | ha2
        · exact hflag
        · exact ihFlags a ha2 hpa
      · intro a ha hpa hlen
        rcases List.mem_cons.mp ha with rfl | ha2
        · exfalso
          obtain ⟨s, hs⟩ := List.isPrefixOf_iff_prefix.mp hpre
          have hslen : s.length = 0 := by
            have := congrArg List.length hs
            simp at this
            omega
          rw [List.length_eq_zero] at hslen
          subst hslen
          simp at hs
          rw [← hs] at hflag
          exact absurd hflag (by decide)
        · exact ihLen2 a ha2 hpa hlen
      · refine ⟨fun hEq => ?_, ihN⟩
        subst hEq
        rw [e2] at hpre
        exact absurd hpre (by simp)
  | case4 p ps hdang hpre hflag =>
      intro out h
      rw [sanitizeGitLogArgs.eq_def] at h
      simp [hdang, hpre, hflag] at h
  | case5 _ _ _ =>
      intro out h
      have hv : sanitizeGitLogArgs ([nFlag]) = some ([nFlag]) := by decide
      rw [hv] at h
      injection h with h2
      subst h2
      exact ⟨⟨by decide, trivial⟩, by decide, by decide, by decide,
        ⟨fun _ => Or.inl rfl, trivial⟩⟩
  | case6 p ps hparse _ _ =>
      intro out h
      rw [sanitizeGitLogArgs.eq_def] at h
      simp [e1, e2, hparse] at h
  | case7 p ps n hparse hlt _ _ =>
      intro out h
      rw [sanitizeGitLogArgs.eq_def] at h
      simp [e1, e2, hparse, hlt] at h
  | case8 p ps n hparse hlt _ _ ih =>
      intro out h
      rw [sanitizeGitLogArgs.eq_def] at h
      simp [e1, e2, hparse, hlt] at h
      obtain ⟨t, ht, rfl⟩ := h
      obtain ⟨ihS, ihClean, ihFlags, ihLen2, ihN⟩ := ih t ht
      have h1n : (1 : Int) ≤ n := by omega
      have hb1 : (1 : Int) ≤ min n 50 := le_min h1n (by omega)
      have hb2 : min n 50 ≤ 50 := min_le_right _ _
      have hm50 : (min n 50).toNat ≤ 50 := by omega
      have hm1 : 1 ≤ (min n 50).toNat := by omega
      refine ⟨⟨e1, fun _ => rfl, dangerChain_of_sound p ps ihS⟩, ?_, ?_, ?_, ?_⟩
      · intro a ha
        rcases List.mem_cons.mp ha with rfl | ha2
        · exact e1
        · rcases List.mem_cons.mp ha2 with rfl | ha3
          · exact natDecStr_small_clean _ hm50
          · exact ihClean a ha3
      · intro a ha hpa
        rcases List.mem_cons.mp ha with rfl | ha2
        · rw [e2] at hpa
          exact absurd hpa (by simp)
        · rcases List.mem_cons.mp ha2 with rfl | ha3
          · exfalso
            obtain ⟨s, hs⟩ := List.isPrefixOf_iff_prefix.mp hpa
            rw [← hs] at hparse
            have hnone : parseIntJs (['-', '-'] ++ s) = none := parseIntJs_ddash_none s
            rw [hnone] at hparse
            exact Option.noConfusion hparse
          · exact ihFlags a ha3 hpa
      · intro a ha hpa hlen
        rcases List.mem_cons.mp ha with rfl | ha2
        · rfl
        · rcases List.mem_cons.mp ha2 with rfl | ha3
          · exfalso
            obtain ⟨s, hs⟩ := List.isPrefixOf_iff_prefix.mp hpa
            rw [← hs] at hparse
            have hle : n ≤ 0 := parseIntJs_dash_nonpos s n hparse
            omega
          · exact ihLen2 a ha3 hpa hlen
      · exact ⟨fun _ => Or.inr ⟨(min n 50).toNat, hm1, hm50, rfl⟩,
          ⟨fun hEq => absurd hEq (natDecStr_small_ne_nFlag _ hm50), ihN⟩⟩
  | case9 p ps hdang hpre hne hflag2 =>
      intro out h
      rw [sanitizeGitLogArgs.eq_def] at h
      simp [hdang, hpre, hne, hflag2] at h
  | case10 p ps hdang hpre hne hflag2 ih =>
      intro out h
      rw [sanitizeGitLogArgs.eq_def] at h
      simp [hdang, hpre, hne, hflag2] at h
      obtain ⟨t, ht, rfl⟩ := h
      obtain ⟨ihS, ihClean, ihFlags, ihLen2, ihN⟩ := ih t ht
      refine ⟨⟨by simpa using hdang, dangerChain_of_sound p ps ihS⟩, ?_, ?_, ?_, ?_⟩
      · intro a ha
        rcases List.mem_cons.mp ha with rfl | ha2
        · simpa using hdang
        · exact ihClean a ha2
      · intro a ha hpa
        rcases List.mem_cons.mp ha with rfl | ha2
        · exact absurd hpa hpre
        · exact ihFlags a ha2 hpa
      · intro a ha hpa hlen
        rcases List.mem_cons.mp ha with rfl | ha2
        · exfalso
          apply hflag2
          simp [hpa, hlen]
        · exact ihLen2 a ha2 hpa hlen
      · exact ⟨fun hEq => absurd hEq hne, ihN⟩

/-- Witness for C1: the amended guarantees instantiated at the concrete call
sanitizeGitLogArgs with arguments -n and 60, whose output is -n 50. -/
theorem sanitizeGitLogArgs_ok_guarantees_witness :
    dangerSound (nFlag :: ('6' :: '0' :: []) :: [])
    ∧ (∀ a ∈ (nFlag :: ('5' :: '0' :: []) :: []), hasDangerous a = false)
    ∧ (∀ a ∈ (nFlag :: ('6' :: '0' :: []) :: []),
        List.isPrefixOf ('-' :: '-' :: []) a = true → flagOf a ∈ allowedGitLogFlags)
    ∧ (∀ a ∈ (nFlag :: ('6' :: '0' :: []) :: []),
        List.isPrefixOf ('-' :: []) a = true → a.length = 2 → a = nFlag)
    ∧ nSuccOk (nFlag :: ('5' :: '0' :: []) :: []) :=
  sanitizeGitLogArgs_ok_guarantees (nFlag :: ('6' :: '0' :: []) :: [])
    (nFlag :: ('5' :: '0' :: []) :: []) (by decide)

/-- Counterexample to C1 as stated: the argument list -n 1| is accepted by
sanitizeGitLogArgs (the argument after -n is consumed as the count and never
passes the dangerous-character filter), yet 1| contains the dangerous
character vertical bar. -/
theorem sanitizeGitLogArgs_dangerous_after_n_cex :
    sanitizeGitLogArgs (nFlag :: ('1' :: '|' :: []) :: [])
      = some (nFlag :: ('1' :: []) :: [])
    ∧ hasDangerous ('1' :: '|' :: []) = true := by
  decide

/-- Witness for C2: the single argument -n500 is passed through unchanged. -/
theorem sanitize_cons_passthrough_witness :
    sanitizeGitLogArgs (("-n500").data :: [])
      = (sanitizeGitLogArgs []).map (fun t => ("-n500").data :: t) :=
  sanitize_cons_passthrough (("-n500").data) [] (by decide) (by decide)
    (by decide) (by decide)

/-! ## Lemmas for scopeMatches -/

theorem append_singleton_prefix_iff (p s : Str) (c : Char) :
    (p ++ (c :: [])) <+: s ↔ p <+: s ∧ List.get? s p.length = some c := by
  induction p generalizing s with
  | nil =>
    cases s with
    | nil => simp
    | cons a t => simp [List.cons_prefix_cons, eq_comm]
  | cons x p2 ih =>
    cases s with
    | nil => simp
    | cons a t => simp [List.cons_prefix_cons, ih, and_assoc]

/-- C6: scopeMatches(k, p) holds exactly when lower(k) equals lower(p) or
lower(k) starts with lower(p) followed by a slash; in particular the pattern
auth matches the stored keys auth, auth/login and auth/login/flow but not
authn. -/
theorem scopeMatches_spec :
    (∀ k p, scopeMatches k p = true ↔
       (lowerStr k = lowerStr p ∨ (lowerStr p ++ ('/' :: [])) <+: lowerStr k))
    ∧ scopeMatches (("auth").data) (("auth").data) = true
    ∧ scopeMatches (("auth/login").data) (("auth").data) = true
    ∧ scopeMatches (("auth/login/flow").data) (("auth").data) = true
    ∧ scopeMatches (("authn").data) (("auth").data) = false := by
  refine ⟨?_, by decide, by decide, by decide, by decide⟩
  intro k p
  rw [scopeMatches]
  simp only [Bool.or_eq_true, Bool.and_eq_true, beq_iff_eq, List.isPrefixOf_iff_prefix]
  rw [append_singleton_prefix_iff]

/-! ## Lemmas for the trailer index query -/

theorem mem_firstDedupGo (h : Str) :
    ∀ (l : List Str) (seen : List Str), h ∈ firstDedupGo seen l ↔ h ∈ l ∧ h ∉ seen := by
  intro l
  induction l with
  | nil => intro seen; simp [firstDedupGo]
  | cons a rest ih =>
    intro seen
    rw [firstDedupGo]
    by_cases hmem : a ∈ seen
    · rw [if_pos hmem, ih]
      constructor
      · rintro ⟨h1, h2⟩
        exact ⟨List.mem_cons_of_mem a h1, h2⟩
      · rintro ⟨h1, h2⟩
        rcases List.mem_cons.mp h1 with rfl | h3
        · exact absurd hmem h2
        · exact ⟨h3, h2⟩
    · rw [if_neg hmem]
      simp only [List.mem_cons, ih]
      constructor
      · rintro (rfl | ⟨h1, h2⟩)
        · exact ⟨Or.inl rfl, hmem⟩
        · exact ⟨Or.inr h1, fun hc => h2 (Or.inr hc)⟩
      · rintro ⟨rfl | h1, h2⟩
        · exact Or.inl rfl
        · by_cases he : h = a
          · exact Or.inl he
          · exact Or.inr ⟨h1, fun hc => hc.elim he h2⟩

theorem mem_firstDedup (h : Str) (l : List Str) : h ∈ firstDedup l ↔ h ∈ l := by
  rw [firstDedup, mem_firstDedupGo]
  simp

theorem applyFilters_some : ∀ (ls : List (List Str)) (c : List Str),
    applyFilters (some c) ls = some (foldFilter c ls) := by
  intro ls
  induction ls with
  | nil => intro c; rfl
  | cons l ls2 ih => intro c; rw [applyFilters, istep, foldFilter]; exact ih _

theorem mem_foldFilter (h : Str) : ∀ (ls : List (List Str)) (c : List Str),
    h ∈ foldFilter c ls ↔ h ∈ c ∧ ∀ l ∈ ls, h ∈ l := by
  intro ls
  induction ls with
  | nil => intro c; simp [foldFilter]
  | cons l ls2 ih =>
    intro c
    rw [foldFilter, ih]
    simp only [List.mem_filter, decide_eq_true_iff, List.forall_mem_cons]
    tauto

theorem foldFilter_sublist : ∀ (ls : List (List Str)) (c : List Str),
    (foldFilter c ls).Sublist c := by
  intro ls
  induction ls with
  | nil => intro c; exact List.Sublist.refl c
  | cons l ls2 ih =>
    intro c
    rw [foldFilter]
    exact (ih _).trans (List.filter_sublist c)

theorem queryCands_eq_applyFilters (idx : TrailerIndex) (p : QueryParams) :
    queryCands idx p = applyFilters none (activeFilters idx p) := by
  cases hI : intentsPresent p <;> cases hS : strPresent p.session <;>
    cases hD : strPresent p.decidedAgainst <;> cases hSc : strPresent p.scope <;>
    simp [queryCands, activeFilters, applyFilters, hI, hS, hD, hSc, applyFilters_some]

theorem activeFilters_nil_iff (idx : TrailerIndex) (p : QueryParams) :
    activeFilters idx p = [] ↔ hasFilter p = false := by
  cases hI : intentsPresent p <;> cases hS : strPresent p.session <;>
    cases hD : strPresent p.decidedAgainst <;> cases hSc : strPresent p.scope <;>
    simp [activeFilters, hasFilter, hI, hS, hD, hSc]

theorem mem_intentUnionList (idx : TrailerIndex) (is : List Str) (h : Str) :
    h ∈ intentUnionList idx is ↔ ∃ i ∈ is, h ∈ (List.lookup i idx.byIntent).getD [] := by
  simp [intentUnionList, List.mem_flatten]

theorem mem_decidedList (idx : TrailerIndex) (kw : Str) (h : Str) :
    h ∈ decidedList idx kw ↔
      h ∈ idx.withDecidedAgainst ∧ ∃ c, List.lookup h idx.commits = some c ∧
        ∃ d ∈ c.decidedAgainst, wordBoundaryMatch d kw = true := by
  rw [decidedList, List.mem_filter]
  refine and_congr Iff.rfl ?_
  rw [decidedPred]
  cases hl : List.lookup h idx.commits with
  | none => simp
  | some c => simp [List.any_eq_true]

theorem mem_scopeUnionList (idx : TrailerIndex) (pat : Str) (h : Str) :
    h ∈ scopeUnionList idx pat ↔
      ∃ k hs, (k, hs) ∈ idx.byScope ∧ scopeMatches k pat = true ∧ h ∈ hs := by
  simp only [scopeUnionList, List.mem_flatten, List.mem_map, List.mem_filter]
  constructor
  · rintro ⟨l, ⟨⟨k, hs⟩, ⟨hmem, hsc⟩, rfl⟩, hin⟩
    exact ⟨k, hs, hmem, hsc, hin⟩
  · rintro ⟨k, hs, hmem, hsc, hin⟩
    exact ⟨hs, ⟨⟨k, hs⟩, ⟨hmem, hsc⟩, rfl⟩, hin⟩

theorem forall_mem_ite_singleton (b : Bool) (x : List Str) (h : Str) (P : Prop)
    (hiff : b = true → (h ∈ x ↔ P)) :
    (∀ l ∈ (if b = true then [x] else ([] : List (List Str))), h ∈ l) ↔ (b = true → P) := by
  cases b with
  | false => simp
  | true => simp [hiff rfl]

theorem satisfies_iff_forall (idx : TrailerIndex) (p : QueryParams) (h : Str) :
    satisfiesFilters idx p h ↔ ∀ l ∈ activeFilters idx p, h ∈ l := by
  rw [activeFilters, satisfiesFilters]
  rw [List.forall_mem_append, List.forall_mem_append, List.forall_mem_append]
  rw [forall_mem_ite_singleton _ _ _ _ (fun _ => mem_intentUnionList idx _ h)]
  have hsess : h ∈ sessionList idx (p.session.getD []) ↔
      h ∈ (List.lookup (p.session.getD []) idx.bySession).getD [] := by
    rw [sessionList]
  rw [forall_mem_ite_singleton _ _ _ _ (fun _ => hsess)]
  rw [forall_mem_ite_singleton _ _ _ _ (fun _ => mem_decidedList idx _ h)]
  rw [forall_mem_ite_singleton _ _ _ _ (fun _ => mem_scopeUnionList idx _ h)]
  rw [and_assoc, and_assoc]

/-- C3: for every trailer index and query parameters, when no filter is
present the query returns the empty list; when a filter is present the result
is the list of exactly those hashes that satisfy every present filter
(membership characterization), ordered by the insertion order of the first
applied filter (a sublist of its deduplicated hash list) and truncated to the
limit, which defaults to 20 (and, the parameter being falsy, also when it is
zero). -/
theorem queryIndexForHashes_spec :
    ∀ (idx : TrailerIndex) (p : QueryParams),
      (hasFilter p = false → queryIndexForHashes idx p = [])
      ∧ (hasFilter p = true →
          ∃ cands : List Str, queryIndexForHashes idx p = cands.take (effLimit p)
            ∧ (∀ h, h ∈ cands ↔ satisfiesFilters idx p h)
            ∧ cands.Sublist (firstDedup ((activeFilters idx p).headD []))) := by
  intro idx p
  constructor
  · intro h0
    have hAF : activeFilters idx p = [] := (activeFilters_nil_iff idx p).mpr h0
    rw [queryIndexForHashes, queryCands_eq_applyFilters, hAF]
    rfl
  · intro h1
    cases hAF : activeFilters idx p with
    | nil =>
      rw [(activeFilters_nil_iff idx p).mp hAF] at h1
      exact absurd h1 (by simp)
    | cons f fs =>
      refine ⟨foldFilter (firstDedup f) fs, ?_, ?_, ?_⟩
      · rw [queryIndexForHashes, queryCands_eq_applyFilters, hAF, applyFilters,
          istep, applyFilters_some]
      · intro h
        rw [mem_foldFilter, mem_firstDedup, satisfies_iff_forall, hAF,
          List.forall_mem_cons]
      · simpa using foldFilter_sublist fs (firstDedup f)

/-- Witness for C3: the spec scenario index (commits aaa, bbb, ccc) queried
with scope auth; the theorem applies and its hypothesis is discharged by
computation. -/
theorem queryIndexForHashes_spec_witness :
    ∃ cands : List Str,
      queryIndexForHashes idxEx pScopeAuth = cands.take (effLimit pScopeAuth)
      ∧ (∀ h, h ∈ cands ↔ satisfiesFilters idxEx pScopeAuth h)
      ∧ cands.Sublist (firstDedup ((activeFilters idxEx pScopeAuth).headD [])) :=
  (queryIndexForHashes_spec idxEx pScopeAuth).2 (by decide)

/-! ## Lemmas for the backward trailer scan -/

theorem prevNonBlank_spec (lines : List Str) :
    ∀ n j, prevNonBlank lines n = some j →
      j < n ∧ (∀ m, j < m → m < n → isBlankLine (lineAt lines m) = true) := by
  intro n
  induction n with
  | zero => intro j h; exact absurd h (by simp [prevNonBlank])
  | succ k ih =>
    intro j h
    rw [prevNonBlank] at h
    by_cases hb : isBlankLine (lineAt lines k) = true
    · rw [if_pos hb] at h
      obtain ⟨h1, h2⟩ := ih j h
      refine ⟨Nat.lt_succ_of_lt h1, ?_⟩
      intro m hm1 hm2
      rcases Nat.lt_succ_iff_lt_or_eq.mp hm2 with hlt | rfl
      · exact h2 m hm1 hlt
      · exact hb
    · rw [if_neg hb] at h
      injection h with h1
      subst h1
      refine ⟨Nat.lt_succ_self _, fun m hm1 hm2 => ?_⟩
      exact absurd hm1 (by omega)

theorem scanLoop_inv (lines : List Str) :
    ∀ (f ts : Nat),
      (∀ m, ts ≤ m → m < lines.length → blankOrKnown lines m) →
      (∀ m, f ≤ m → m < lines.length → blankOrKnown lines m) →
      ∀ m, scanLoop lines f ts ≤ m → m < lines.length → blankOrKnown lines m := by
  intro f
  induction f with
  | zero => intro ts hts _ m h1 h2; exact hts m h1 h2
  | succ i ih =>
    intro ts hts hf m
    by_cases hb : isBlankLine (lineAt lines i) = true
    · cases hp : prevNonBlank lines i with
      | some j =>
        by_cases hk : isKnownTrailerLine (lineAt lines j) = true
        · have hred : scanLoop lines (i + 1) ts = scanLoop lines i ts := by
            rw [scanLoop]
            simp [hb, hp, hk]
          rw [hred]
          refine ih ts hts ?_ m
          intro m2 hm2 hl2
          rcases Nat.eq_or_lt_of_le hm2 with rfl | hlt
          · exact Or.inl hb
          · exact hf m2 hlt hl2
        · have hred : scanLoop lines (i + 1) ts = ts := by
            rw [scanLoop]
            simp [hb, hp, hk]
          rw [hred]
          exact hts m
      | none =>
        have hred : scanLoop lines (i + 1) ts = ts := by
          rw [scanLoop]
          simp [hb, hp]
        rw [hred]
        exact hts m
    · by_cases hk : isKnownTrailerLine (lineAt lines i) = true
      · have hred : scanLoop lines (i + 1) ts = scanLoop lines i i := by
          rw [scanLoop]
          simp [hb, hk]
        rw [hred]
        have hup : ∀ m2, i ≤ m2 → m2 < lines.length → blankOrKnown lines m2 := by
          intro m2 hm2 hl2
          rcases Nat.eq_or_lt_of_le hm2 with rfl | hlt
          · exact Or.inr hk
          · exact hf m2 hlt hl2
        exact ih i hup hup m
      · have hred : scanLoop lines (i + 1) ts = lines.length := by
          rw [scanLoop]
          simp [hb, hk]
        rw [hred]
        intro h1 h2
        exact absurd (lt_of_le_of_lt h1 h2) (lt_irrefl _)

theorem trailerStartOf_inv (lines : List Str) :
    ∀ m, trailerStartOf lines ≤ m → m < lines.length → blankOrKnown lines m := by
  rw [trailerStartOf]
  cases hp : prevNonBlank lines lines.length with
  | none =>
    intro m h1 h2
    exact absurd (lt_of_le_of_lt h1 h2) (lt_irrefl _)
  | some i0 =>
    obtain ⟨hi0, hblank⟩ := prevNonBlank_spec lines lines.length i0 hp
    refine scanLoop_inv lines (i0 + 1) lines.length ?_ ?_
    · intro m h1 h2
      exact absurd (lt_of_le_of_lt h1 h2) (lt_irrefl _)
    · intro m h1 h2
      exact Or.inl (hblank m (by omega) h2)

theorem mem_drop_index (l0 : Str) (lines : List Str) (ts : Nat)
    (h : l0 ∈ lines.drop ts) :
    ∃ i, ts ≤ i ∧ i < lines.length ∧ lineAt lines i = l0 := by
  obtain ⟨k, hk, hget⟩ := List.getElem_of_mem h
  rw [List.getElem_drop] at hget
  have hlen : ts + k < lines.length := by
    have := hk
    rw [List.length_drop] at this
    omega
  refine ⟨ts + k, Nat.le_add_right _ _, hlen, ?_⟩
  rw [lineAt, List.get?_eq_getElem?, List.getElem?_eq_getElem hlen, hget]
  rfl

theorem trailerLines_known (rawBody : Str) :
    ∀ l ∈ (splitHeaderBodyTrailers rawBody).2, isKnownTrailerTrimmed l = true := by
  intro l hl
  rw [splitHeaderBodyTrailers] at hl
  simp only [List.mem_filter, List.mem_map] at hl
  obtain ⟨⟨l0, hl0, rfl⟩, hne⟩ := hl
  obtain ⟨i, hts, hlen, hget⟩ := mem_drop_index l0 _ _ hl0
  rcases trailerStartOf_inv _ i hts hlen with hblank | hknown
  · rw [hget] at hblank
    rw [isBlankLine] at hblank
    rw [hblank] at hne
    exact absurd hne (by simp)
  · rw [hget] at hknown
    exact hknown

/-- C5: parseCommitBlock on the webhook scenario block succeeds with the body
holding the WEBHOOK_URL line verbatim, intent enable-capability and scope
api/webhooks; and, in general, every line of the trailer block returned by
splitHeaderBodyTrailers is a recognized known-key trailer, so a non-trailer,
non-blank line is never part of the trailer block: it terminates trailer
detection and it and everything above it belong to the body prefix. -/
theorem parseCommitBlock_webhook_scan :
    ((parseCommitBlock webhookBlock).toOption.map
        (fun c => (c.body, c.intent, c.scope))
      = some ((("Configure via WEBHOOK_URL: https://example.com").data,
               some (("enable-capability").data), [("api/webhooks").data])))
    ∧ (∀ rawBody : Str, ∀ l ∈ (splitHeaderBodyTrailers rawBody).2,
        isKnownTrailerTrimmed l = true) :=
  ⟨by decide, trailerLines_known⟩

/-- Witness for C5: the general trailer-block statement applied at the
concrete raw body of the webhook scenario and its Intent line. -/
theorem parseCommitBlock_webhook_scan_witness :
    isKnownTrailerTrimmed (("Intent: enable-capability").data) = true :=
  parseCommitBlock_webhook_scan.2
    (("Configure via WEBHOOK_URL: https://example.com\n\nIntent: enable-capability\nScope: api/webhooks").data)
    (("Intent: enable-capability").data) (by decide)

/-- C9: parseCommitBlock fails exactly when a Hash, Date or Subject line is
missing (with the missing-required-fields reason) or when the subject text of
the first Subject line does not match the conventional-commit header regex
(with the non-conventional-subject reason); every block with all three lines
and a matching subject yields a StructuredCommit. -/
theorem parseCommitBlock_failure_spec :
    ∀ block : Str,
      (requiredPresent block = true ↔
        ((∃ l ∈ jsSplit '\n' (jsTrim block), List.isPrefixOf hashTag l = true)
         ∧ (∃ l ∈ jsSplit '\n' (jsTrim block), List.isPrefixOf dateTag l = true)
         ∧ (∃ l ∈ jsSplit '\n' (jsTrim block), List.isPrefixOf subjectTag l = true)))
      ∧ (match parseCommitBlock block with
        | .ok _ => requiredPresent block = true ∧ headerExec (subjectTextOf block) ≠ none
        | .error e =>
            (requiredPresent block = false ∧ e.reason = missingFieldsMsg)
            ∨ (requiredPresent block = true ∧ headerExec (subjectTextOf block) = none
               ∧ e.reason = nonConvMsg (subjectTextOf block))) := by
  intro block
  constructor
  · rw [requiredPresent]
    simp only [List.find?_isSome, Bool.and_eq_true]
    tauto
  · cases hH : (jsSplit '\n' (jsTrim block)).find? (fun l => List.isPrefixOf hashTag l) with
    | none =>
      have hreq : requiredPresent block = false := by
        rw [requiredPresent]
        simp [hH]
      simp only [parseCommitBlock, hH]
      left
      exact ⟨hreq, trivial⟩
    | some hl =>
      cases hD : (jsSplit '\n' (jsTrim block)).find? (fun l => List.isPrefixOf dateTag l) with
      | none =>
        have hreq : requiredPresent block = false := by
          rw [requiredPresent]
          simp [hH, hD]
        simp only [parseCommitBlock, hH, hD]
        left
        exact ⟨hreq, trivial⟩
      | some dl =>
        cases hS : (jsSplit '\n' (jsTrim block)).find? (fun l => List.isPrefixOf subjectTag l) with
        | none =>
          have hreq : requiredPresent block = false := by
            rw [requiredPresent]
            simp [hH, hD, hS]
          simp only [parseCommitBlock, hH, hD, hS]
          left
          exact ⟨hreq, trivial⟩
        | some sl =>
          have hreq : requiredPresent block = true := by
            rw [requiredPresent]
            simp [hH, hD, hS]
          have hsub : subjectTextOf block = jsTrim (sl.drop 9) := by
            rw [subjectTextOf, hS]
          cases hhe : headerExec (jsTrim (sl.drop 9)) with
          | none =>
            simp only [parseCommitBlock, hH, hD, hS, hhe]
            right
            refine ⟨hreq, ?_, ?_⟩
            · rw [hsub]
              exact hhe
            · rw [hsub]
          | some tys =>
            simp only [parseCommitBlock, hH, hD, hS, hhe]
            refine ⟨hreq, ?_⟩
            rw [hsub, hhe]
            simp

/-! ## Theorems about the REPL driver -/

theorem runReplLoop_inv (o : ReplOracle) (cfg : ReplConfig) :
    ∀ (fuel i count : Nat) (trace : List ReplTraceEntry),
      fuel + i = cfg.maxIterations →
      count ≤ cfg.maxLlmCalls →
      trace.length ≤ i →
      loopOK cfg (runReplLoop o cfg fuel i count trace) := by
  intro fuel
  induction fuel with
  | zero =>
    intro i count trace hfi hcount htrace
    rw [runReplLoop]
    exact ⟨hcount, by omega⟩
  | succ f ih =>
    intro i count trace hfi hcount htrace
    by_cases hcond : ((o.iter i).budget || !(decide (count < cfg.maxLlmCalls))) = true
    · simp only [runReplLoop, if_pos hcond, loopOK]
      exact ⟨hcount, by omega⟩
    · have hlt : count < cfg.maxLlmCalls := by
        by_contra hno
        exact hcond (by simp [hno])
      cases hroot : (o.iter i).root with
      | none =>
        simp only [runReplLoop, if_neg hcond, hroot, loopOK]
        omega
      | some resp =>
        cases hext : extractCodeBlock resp with
        | none =>
          simp only [runReplLoop, if_neg hcond, hroot, hext, loopOK]
          refine ⟨trivial, by omega, by omega⟩
        | some code =>
          have hc2 : count + 1 + min (o.iter i).subRequests (cfg.maxLlmCalls - (count + 1))
              ≤ cfg.maxLlmCalls := by omega
          cases hexec : (o.iter i).exec with
          | none =>
            simp only [runReplLoop, if_neg hcond, hroot, hext, hexec]
            refine ih (i + 1) _ _ (by omega) hc2 ?_
            simp only [List.length_append, List.length_cons, List.length_nil]
            omega
          | some out =>
            by_cases hdone : (out.done && doneAnswerTruthy out.doneAnswer) = true
            · simp only [runReplLoop, if_neg hcond, hroot, hext, hexec, if_pos hdone, loopOK]
              exact ⟨trivial, hc2, by omega⟩
            · simp only [runReplLoop, if_neg hcond, hroot, hext, hexec, if_neg hdone]
              refine ih (i + 1) _ _ (by omega) hc2 ?_
              simp only [List.length_append, List.length_cons, List.length_nil]
              omega

/-- C4: in every run of runRepl the total LLM call count (root calls,
tracked sandbox sub-calls, forced final call) stays at most maxLlmCalls + 1
(in fact at most maxLlmCalls, since every increment is guarded), a returned
iterations count stays at most maxIterations + 1, and the sandbox is
terminated on every exit path (normal return and propagated LLM failure; the
thrown-exception path is the try/finally of the source, which the model
renders as the unconditional terminated flag). -/
theorem runRepl_budget_cleanup :
    ∀ (o : ReplOracle) (cfg : ReplConfig),
      (runRepl o cfg).terminated = true
      ∧ (runRepl o cfg).llmCount ≤ cfg.maxLlmCalls + 1
      ∧ (∀ r, (runRepl o cfg).result = some r →
          r.llmCalls ≤ cfg.maxLlmCalls + 1 ∧ r.iterations ≤ cfg.maxIterations + 1) := by
  intro o cfg
  have hinv := runReplLoop_inv o cfg cfg.maxIterations 0 0 [] (by omega) (by omega) (by simp)
  cases hres : runReplLoop o cfg cfg.maxIterations 0 0 [] with
  | returned r c =>
    rw [hres] at hinv
    simp only [loopOK] at hinv
    simp only [runRepl, hres]
    refine ⟨trivial, by omega, ?_⟩
    intro r2 hr2
    have he : r = r2 := Option.some.inj hr2
    subst he
    exact ⟨by omega, by omega⟩
  | failed c =>
    rw [hres] at hinv
    simp only [loopOK] at hinv
    simp only [runRepl, hres]
    refine ⟨trivial, by omega, ?_⟩
    intro r2 hr2
    exact absurd hr2 (by simp)
  | fellThrough c trace =>
    rw [hres] at hinv
    simp only [loopOK] at hinv
    by_cases hfin : (decide (c < cfg.maxLlmCalls) && !o.finalBudget) = true
    · have hc : c < cfg.maxLlmCalls := by
        have := (Bool.and_eq_true _ _).mp hfin
        simpa using this.1
      cases hfr : o.finalRoot with
      | some t =>
        simp only [runRepl, hres, hfr, if_pos hfin]
        refine ⟨trivial, by omega, ?_⟩
        intro r2 hr2
        have he := Option.some.inj hr2
        subst he
        exact ⟨(by omega : c + 1 ≤ cfg.maxLlmCalls + 1),
          (by omega : cfg.maxIterations + 1 ≤ cfg.maxIterations + 1)⟩
      | none =>
        simp only [runRepl, hres, hfr, if_pos hfin]
        refine ⟨trivial, by omega, ?_⟩
        intro r2 hr2
        have he := Option.some.inj hr2
        subst he
        exact ⟨(by omega : c + 1 ≤ cfg.maxLlmCalls + 1),
          (by omega : trace.length ≤ cfg.maxIterations + 1)⟩
    · simp only [runRepl, hres, if_neg hfin]
      refine ⟨trivial, by omega, ?_⟩
      intro r2 hr2
      have he := Option.some.inj hr2
      subst he
      exact ⟨(by omega : c ≤ cfg.maxLlmCalls + 1),
        (by omega : trace.length ≤ cfg.maxIterations + 1)⟩

/-- C7 (amended): whenever the root LLM response of loop iteration i has no
fenced code block, runRepl returns that entire response as the final answer
with iterations = i + 1; in particular, when the first root response has no
fence (and the budgets admit the first iteration), the returned iterations
count equals 1.  The claim as stated, with iterations always 1, fails for a
fence-less response in a later iteration. -/
theorem runRepl_no_fence :
    (∀ (o : ReplOracle) (cfg : ReplConfig) (fuel i count : Nat)
       (trace : List ReplTraceEntry) (t : Str),
       (o.iter i).budget = false → count < cfg.maxLlmCalls →
       (o.iter i).root = some t → extractCodeBlock t = none →
       runReplLoop o cfg (fuel + 1) i count trace
         = .returned { answer := t, iterations := i + 1, llmCalls := count + 1,
                       trace := trace } (count + 1))
    ∧ (∀ (o : ReplOracle) (cfg : ReplConfig) (t : Str),
       0 < cfg.maxIterations → 0 < cfg.maxLlmCalls →
       (o.iter 0).budget = false → (o.iter 0).root = some t →
       extractCodeBlock t = none →
       (runRepl o cfg).result
         = some { answer := t, iterations := 1, llmCalls := 1, trace := [] }) := by
  have hstep : ∀ (o : ReplOracle) (cfg : ReplConfig) (fuel i count : Nat)
      (trace : List ReplTraceEntry) (t : Str),
      (o.iter i).budget = false → count < cfg.maxLlmCalls →
      (o.iter i).root = some t → extractCodeBlock t = none →
      runReplLoop o cfg (fuel + 1) i count trace
        = .returned { answer := t, iterations := i + 1, llmCalls := count + 1,
                      trace := trace } (count + 1) := by
    intro o cfg fuel i count trace t hb hlt hroot hext
    rw [runReplLoop]
    have hcond : ((o.iter i).budget || !(decide (count < cfg.maxLlmCalls))) = false := by
      simp [hb, hlt]
    rw [hcond]
    simp only [hroot, hext]
    rfl
  refine ⟨hstep, ?_⟩
  intro o cfg t hiter hllm hb hroot hext
  obtain ⟨k, hk⟩ : ∃ k, cfg.maxIterations = k + 1 := ⟨cfg.maxIterations - 1, by omega⟩
  have h1 := hstep o cfg k 0 0 [] t hb hllm hroot hext
  simp only [runRepl, hk, h1]

/-- Counterexample to C7 as stated: a first response with a code block whose
execution does not finish, then a second response without a fence; that text
is returned as the answer but iterations is 2, not 1. -/
theorem runRepl_no_fence_cex :
    (oracleC7.iter 1).root = some plainResp
    ∧ extractCodeBlock plainResp = none
    ∧ (runRepl oracleC7 cfgSmall).result.map ReplResult.answer = some plainResp
    ∧ (runRepl oracleC7 cfgSmall).result.map ReplResult.iterations = some 2
    ∧ ¬((runRepl oracleC7 cfgSmall).result.map ReplResult.iterations = some 1) := by
  decide

/-- C8 (amended): whenever a sandbox execution inside runRepl yields done =
true with a non-null, non-empty doneAnswer, runRepl returns that doneAnswer
as the answer.  The claim as stated also covers the empty string, but the
host checks output.done and output.doneAnswer by JavaScript truthiness, so
an empty doneAnswer is ignored and the loop continues. -/
theorem runRepl_done_returns :
    ∀ (o : ReplOracle) (cfg : ReplConfig) (fuel i count : Nat)
      (trace : List ReplTraceEntry) (t code : Str) (out : SandboxOutput) (s : Str),
      (o.iter i).budget = false → count < cfg.maxLlmCalls →
      (o.iter i).root = some t → extractCodeBlock t = some code →
      (o.iter i).exec = some out → out.done = true →
      out.doneAnswer = some s → s ≠ [] →
      runReplLoop o cfg (fuel + 1) i count trace
        = .returned { answer := s, iterations := i + 1,
                      llmCalls := count + 1 +
                        min (o.iter i).subRequests (cfg.maxLlmCalls - (count + 1)),
                      trace := trace ++ [{ iteration := i, codeGenerated := code,
                                           executionResult := execResultStr out,
                                           subCallCount := min (o.iter i).subRequests
                                             (cfg.maxLlmCalls - (count + 1)) }] }
            (count + 1 + min (o.iter i).subRequests (cfg.maxLlmCalls - (count + 1))) := by
  intro o cfg fuel i count trace t code out s hb hlt hroot hext hexec hdone hda hne
  rw [runReplLoop]
  have hcond : ((o.iter i).budget || !(decide (count < cfg.maxLlmCalls))) = false := by
    simp [hb, hlt]
  rw [hcond]
  have htruthy : (out.done && doneAnswerTruthy out.doneAnswer) = true := by
    rw [hdone, hda]
    simp [doneAnswerTruthy, hne]
  simp only [hroot, hext, hexec, htruthy, if_true]
  rw [hda]
  rfl

/-- Witness for C8: the done path at a concrete oracle whose execution calls
done with the text Found 2 auth commits. -/
theorem runRepl_done_returns_witness :
    runReplLoop oracleC8w cfgSmall 1 0 0 []
      = .returned { answer := ("Found 2 auth commits").data, iterations := 1,
                    llmCalls := 1,
                    trace := [{ iteration := 0, codeGenerated := codeOfFencedResp,
                                executionResult := [], subCallCount := 0 }] } 1 := by
  have h := runRepl_done_returns oracleC8w cfgSmall 0 0 0 [] fencedResp
    codeOfFencedResp outDoneAnswer (("Found 2 auth commits").data)
    (by decide) (by decide) (by decide) (by decide) (by decide) (by decide)
    (by decide) (by decide)
  simpa using h

/-- Counterexample to C8 as stated: an execution output with done = true and
doneAnswer the empty string (non-null); runRepl does not return the empty
string but continues and answers FINAL from the forced final call. -/
theorem runRepl_done_empty_cex :
    (oracleC8.iter 0).exec
      = some { stdout := [], error := none, done := true, doneAnswer := some [] }
    ∧ (runRepl oracleC8 cfgOne).result.map ReplResult.answer = some (("FINAL").data)
    ∧ ¬((runRepl oracleC8 cfgOne).result.map ReplResult.answer = some ([] : Str)) := by
  decide

/-- C10: when the rlm-config.json file is missing or unreadable,
loadRlmConfig returns the documented defaults: disabled, endpoint
http://localhost:11434, timeoutMs 5000, maxTokens 256, and the REPL settings
replMaxIterations 6, replMaxLlmCalls 10, replTimeoutBudgetMs 15000,
replMaxOutputTokens 512. -/
theorem loadRlmConfig_defaults :
    loadRlmConfig none = DEFAULT_CONFIG
    ∧ DEFAULT_CONFIG.enabled = false
    ∧ DEFAULT_CONFIG.endpoint = ("http://localhost:11434").data
    ∧ DEFAULT_CONFIG.timeoutMs = 5000
    ∧ DEFAULT_CONFIG.maxTokens = 256
    ∧ DEFAULT_CONFIG.replMaxIterations = 6
    ∧ DEFAULT_CONFIG.replMaxLlmCalls = 10
    ∧ DEFAULT_CONFIG.replTimeoutBudgetMs = 15000
    ∧ DEFAULT_CONFIG.replMaxOutputTokens = 512 :=
  ⟨rfl, rfl, rfl, rfl, rfl, rfl, rfl, rfl, rfl⟩
